import Mathlib

/-
Verification development for the igtdetect gloss harvester
(src/igtdetect/glossharvester.py).  The Python functions are embedded
shallowly: strings are Lean Strings (operated on through their character
lists so that everything is executable and kernel-reducible), machine
floats are modelled as exact decimal fractions (the only float operations
in the source are parsing short decimal literals and an order comparison,
which agree with exact arithmetic on such literals), and code that can
raise a Python exception returns Except PyErr.
-/

namespace IgtHarvest

/-- Kinds of Python exceptions the harvester can raise.  The payload of
nameErr is the identifier of the unbound local variable. -/
inductive PyErr where
  | nameErr (v : String)
  | valueErr
  | indexErr
  | attrErr
deriving DecidableEq, Repr

instance {ε α : Type} [DecidableEq ε] [DecidableEq α] : DecidableEq (Except ε α) :=
  fun a b =>
    match a, b with
    | .ok x, .ok y =>
      if h : x = y then isTrue (by rw [h]) else isFalse (fun hh => by cases hh; exact h rfl)
    | .error x, .error y =>
      if h : x = y then isTrue (by rw [h]) else isFalse (fun hh => by cases hh; exact h rfl)
    | .ok _, .error _ => isFalse (fun hh => by cases hh)
    | .error _, .ok _ => isFalse (fun hh => by cases hh)

/-! ## Python string/list primitives -/

/-- Python-style non-overlapping split on a nonempty separator
(first char s0, rest srest), scanning left to right.  Mirrors
str.split(sep).  Structural recursion on a fuel argument (every step
consumes at least one character, so fuel = input length suffices) keeps
the definition kernel-reducible. -/
def splitOnAuxNE (s0 : Char) (srest : List Char) : Nat → List Char → List Char → List (List Char)
  | _, [], acc => [acc.reverse]
  | 0, l, acc => [acc.reverse ++ l]
  | fuel + 1, c :: rest, acc =>
    if (s0 :: srest).isPrefixOf (c :: rest) then
      acc.reverse :: splitOnAuxNE s0 srest fuel (rest.drop srest.length) []
    else
      splitOnAuxNE s0 srest fuel rest (c :: acc)

/-- Python str.split(sep) for a nonempty separator; for the (unused)
empty separator it returns the string unsplit. -/
def splitOnS (s : String) (sep : String) : List String :=
  match sep.data with
  | [] => [s]
  | c :: cs => (splitOnAuxNE c cs s.data.length s.data []).map (fun l => String.mk l)

/-- Python `sep in s` substring test, expressed through the same split
primitive the source uses (a nonempty sep occurs in s iff splitting on it
yields at least two parts). -/
def containsS (s : String) (sep : String) : Bool :=
  2 ≤ (splitOnS s sep).length

/-- Python str.split() (no argument): split on whitespace runs, dropping
empty tokens. -/
def wsAux : List Char → List Char → List (List Char)
  | [], acc => if acc.isEmpty then [] else [acc.reverse]
  | c :: rest, acc =>
    if c.isWhitespace then
      if acc.isEmpty then wsAux rest [] else acc.reverse :: wsAux rest []
    else
      wsAux rest (c :: acc)

def pySplitWs (s : String) : List String :=
  (wsAux s.data []).map (fun l => String.mk l)

/-- Python str.startswith. -/
def startsWithS (s : String) (p : String) : Bool :=
  p.data.isPrefixOf s.data

/-- Python list indexing (negative indices address from the end; anything
further out raises IndexError, modelled as none). -/
def pyIndex (xs : List String) (j : Int) : Option String :=
  if 0 ≤ j then xs.get? j.toNat
  else if j.natAbs ≤ xs.length then xs.get? (xs.length - j.natAbs)
  else none

/-- Join a list of strings. -/
def concatAll (l : List String) : String :=
  l.foldl (fun a b => a ++ b) ""

/-- Intercalate used to rebuild the tail of a maxsplit-1 split. -/
def interS (sep : String) : List String → String
  | [] => ""
  | [x] => x
  | x :: y :: xs => x ++ sep ++ interS sep (y :: xs)

/-- First-occurrence-only replacement: Python s.replace(old, new, 1). -/
def replaceFirst (s old new : String) : String :=
  match splitOnS s old with
  | [] => s
  | [_] => s
  | a :: b :: rest => a ++ new ++ interS old (b :: rest)

def digitsToNat : List Char → Option Nat
  | [] => none
  | cs =>
    if cs.all Char.isDigit then
      some (cs.foldl (fun n c => 10 * n + (c.toNat - '0'.toNat)) 0)
    else none

def trimWsL (cs : List Char) : List Char :=
  ((cs.dropWhile Char.isWhitespace).reverse.dropWhile Char.isWhitespace).reverse

/-- Python int(str): optional sign and decimal digits (whitespace
stripped); anything else raises ValueError. -/
def pyInt (s : String) : Except PyErr Int :=
  match trimWsL s.data with
  | '-' :: rest =>
    match digitsToNat rest with
    | some n => .ok (-(n : Int))
    | none => .error .valueErr
  | '+' :: rest =>
    match digitsToNat rest with
    | some n => .ok (n : Int)
    | none => .error .valueErr
  | cs =>
    match digitsToNat cs with
    | some n => .ok (n : Int)
    | none => .error .valueErr

/-- Exact value of a parsed decimal float literal, kept as an
unnormalized fraction num/den with den a power of ten.  Python floats
enter this program only by parsing short decimal literals and comparing
with another such value; both are exact in this representation, and the
order comparison below agrees with the float comparison because distinct
short decimals are never within a double ulp of each other. -/
structure PyFloat where
  num : Int
  den : Nat
deriving DecidableEq, Repr

/-- Order on parsed floats by cross-multiplication (denominators are
always positive powers of ten). -/
def PyFloat.lt (a b : PyFloat) : Bool :=
  a.num * (b.den : Int) < b.num * (a.den : Int)

def pyZero : PyFloat := { num := 0, den := 1 }

/-- The source's default iscore_cutoff of 0.6. -/
def defaultCutoff : PyFloat := { num := 6, den := 10 }

def natValDigits (cs : List Char) : Nat :=
  cs.foldl (fun n c => 10 * n + (c.toNat - '0'.toNat)) 0

/-- Python float(str), modelled for plain decimal forms (optional sign,
digits, at most one dot); other accepted Python spellings (exponents,
inf/nan, underscores) are not produced by the harvester's inputs and are
treated as parse failures. -/
def parsePyFloat (s : String) : Option PyFloat :=
  let body : List Char → Option PyFloat := fun cs =>
    match splitOnAuxNE '.' [] cs.length cs [] with
    | [as] => (digitsToNat as).map (fun n => { num := (n : Int), den := 1 })
    | [as, bs] =>
      if (as.all Char.isDigit ∧ bs.all Char.isDigit) ∧ (as ≠ [] ∨ bs ≠ []) then
        some { num := ((natValDigits as * 10 ^ bs.length + natValDigits bs : Nat) : Int),
               den := 10 ^ bs.length }
      else none
    | _ => none
  match trimWsL s.data with
  | '-' :: rest => (body rest).map (fun q => { num := -q.num, den := q.den })
  | '+' :: rest => body rest
  | cs => body cs

/-- Python s[0:n] on strings. -/
def takeS (s : String) (n : Nat) : String := String.mk (s.data.take n)

/-! ## Line Reader (glossharvester.py lines 4-25) -/

/-- get_utterance: row.split(chr 58, 1)[1] if a colon occurs, else the
sentinel NA.  The maxsplit-1 tail is rebuilt by re-joining everything
after the first colon. -/
def get_utterance (row : String) : String :=
  if containsS row ":" then interS ":" (splitOnS row ":").tail else "NA"

/-- get_linenr: first whitespace token after the marker; raises
IndexError when the marker is present with nothing after it; NA when the
marker is absent. -/
def get_linenr (row : String) : Except PyErr String :=
  if containsS row "line=" then
    match pySplitWs ((splitOnS row "line=").getD 1 "") with
    | [] => .error .indexErr
    | t :: _ => .ok t
  else .ok "NA"

/-- get_linetag: the single character after the marker; the try/except in
the source turns the empty-chunk IndexError into NA. -/
def get_linetag (row : String) : String :=
  if containsS row "tag=" then
    let chunk := (splitOnS row "tag=").getD 1 ""
    if chunk.isEmpty then "NA" else takeS chunk 1
  else "NA"

/-- get_iscore: float of the first three characters after the marker;
note the membership test is for the bare word, so a row containing it
without the = sign raises IndexError, and an unparseable 3-char slice
raises ValueError. -/
def get_iscore (row : String) : Except PyErr PyFloat :=
  if containsS row "iscore" then
    match (splitOnS row "iscore=").get? 1 with
    | none => .error .indexErr
    | some chunk =>
      match parsePyFloat (takeS chunk 3) with
      | some q => .ok q
      | none => .error .valueErr
  else .ok pyZero

/-! ## Text Normalizer (glossharvester.py lines 36-68) -/

/-- A token qualifies as an enumeration-prefix token: it contains a
punctuation character from the set or a digit, and its length is < 6. -/
def isPrefTok (item : String) : Bool :=
  (item.data.any (fun c =>
      c = '.' ∨ c = '(' ∨ c = ')' ∨ c = '\x7b' ∨ c = '\x7d' ∨ c = '[' ∨ c = ']'
      ∨ c.isDigit))
    && item.data.length < 6

/-- Loop body of detect_prefix: accumulate qualifying tokens; return the
accumulator at the first non-qualifying token; if the loop exhausts the
tokens the source returns Python None (modelled as none). -/
def prefGo : List String → List String → Option (List String)
  | [], _acc => none
  | w :: ws, acc => if isPrefTok w then prefGo ws (acc ++ [w]) else some acc

def detect_prefix (line : String) : Option (List String) :=
  prefGo (pySplitWs line) []

/-- get_utterance_and_prefix: strips each detected token from the
utterance, first occurrence only; the Python truthiness test means both
None and the empty list leave the utterance unchanged. -/
def get_utterance_and_prefix (row : String) : Option (List String) × String :=
  let utterance := get_utterance row
  let pfx := detect_prefix utterance
  match pfx with
  | some (p :: ps) => (pfx, (p :: ps).foldl (fun u q => replaceFirst u q "") utterance)
  | _ => (pfx, utterance)

def isMarkChar (c : Char) : Bool :=
  c = '*' ∨ c = '?' ∨ c = '#' ∨ c = '%'

/-- Loop body of detect_grammaticality: the source returns the
accumulated markers at the first non-marker character; when the loop over
the first word's characters completes, control falls off the function and
Python returns None. -/
def gramGo : List Char → String → Option String
  | [], _acc => none
  | c :: cs, acc => if isMarkChar c then gramGo cs (acc.push c) else some acc

def detect_grammaticality (utterance : String) : Option String :=
  match pySplitWs utterance with
  | [] => none
  | w :: _ => gramGo w.data ""

/-! ## Context Extractor (glossharvester.py lines 27-34) -/

/-- Loop of get_context: add utterance plus newline for each offset; the
bare except returns the partial result at the first failing list access
(which, with Python indexing, only happens beyond both ends). -/
def ctxGo (lines : List String) : List Int → String → String
  | [], acc => acc
  | j :: js, acc =>
    match pyIndex lines j with
    | none => acc
    | some s => ctxGo lines js (acc ++ get_utterance s ++ "\n")

def get_context (lines : List String) (index : Nat) (csize : Nat) : String :=
  ctxGo lines ((List.range (2 * csize)).map (fun (k : Nat) => (index : Int) - (csize : Int) + Int.ofNat k)) ""

/-! ## IGT record and engine state (glossharvester.py lines 71-131) -/

/-- The prefix field holds either the constructor default NA or the
result of detect_prefix (Python None or a token list). -/
inductive PrefixVal where
  | na : PrefixVal
  | found : Option (List String) → PrefixVal
deriving DecidableEq, Repr

structure IGT where
  line : String
  gloss : String
  translation : String
  pfx : PrefixVal
  grammarker : Option String
  context : String
  source : String
  linenr : Int
  pagenr : String
  doi : String
  classification_methods : List String
deriving DecidableEq, Repr

/-- Engine state: records created so far, consumed line numbers (as
strings), and the ambient (source, pagenr) pair, none until the first
document-boundary line binds the Python locals. -/
structure HState where
  IGTs : List IGT
  saved : List String
  ambient : Option (String × String)
deriving DecidableEq, Repr

def initState : HState := { IGTs := [], saved := [], ambient := none }

/-- Reading the Python locals source/pagenr before any doc_id row raises
UnboundLocalError, named after the first variable referenced. -/
def getAmbient (st : HState) : Except PyErr (String × String) :=
  match st.ambient with
  | some a => .ok a
  | none => .error (.nameErr "source")

/-! ## Record Association Engine (glossharvester.py lines 123-211) -/

/-- re.search of doc_id=(.*?)-scanned: leftmost match starts at the first
doc_id= marker, and the lazy group runs to the first -scanned after it;
no match is Python None (the source then raises AttributeError). -/
def docIdSource (row : String) : Option String :=
  match splitOnS row "doc_id=" with
  | _ :: t :: ts =>
    let tl := interS "doc_id=" (t :: ts)
    if containsS tl "-scanned" then some ((splitOnS tl "-scanned").headD "") else none
  | _ => none

/-- row.split(page-marker)[1].split(space)[0]; the first subscript raises
IndexError when the marker is absent (split on a single space always
yields at least one part, so the second subscript is safe). -/
def pageOf (row : String) : Option String :=
  match (splitOnS row "page=").get? 1 with
  | none => none
  | some chunk => some ((splitOnS chunk " ").headD "")

/-- Lines 189-202: the iscore fallback.  Reached for content lines whose
tag is none of L/G/T, and also by fall-through from the multi-candidate
G/T case (whose branch body is just pass, with no continue). -/
def iscoreFallback (lines : List String) (cutoff : PyFloat) (i : Nat) (st : HState)
    (utterance : String) (linenr : String) (v : PyFloat) : Except PyErr HState :=
  if cutoff.lt v then
    match pyIndex lines ((i : Int) - 1) with
    | none => .error .indexErr
    | some prev =>
      match get_linenr prev with
      | .error e => .error e
      | .ok pnr =>
        if pnr ∈ st.saved then .ok st
        else
          match getAmbient st with
          | .error e => .error e
          | .ok amb =>
            let q := get_utterance_and_prefix prev
            let tr := if i + 2 < lines.length then get_utterance (lines.getD (i + 1) "") else "NA"
            let igt : IGT :=
              { line := q.2, gloss := utterance, translation := tr,
                pfx := .found q.1,
                grammarker := detect_grammaticality q.2,
                context := get_context lines i 5,
                source := amb.1, linenr := 0, pagenr := amb.2, doi := "NA",
                classification_methods := ["IGT initialized by iscore L and T assigned accordingly"] }
            .ok { st with IGTs := st.IGTs ++ [igt], saved := st.saved ++ [linenr] }
  else .ok st

/-- Lines 142-149: the L branch.  int(linenr) is evaluated before the
source keyword argument, so an unparseable line number raises ValueError
ahead of any UnboundLocalError. -/
def lBranch (lines : List String) (i : Nat) (st : HState)
    (utterance : String) (linenr : String) : Except PyErr HState :=
  match pyInt linenr with
  | .error e => .error e
  | .ok n =>
    match getAmbient st with
    | .error e => .error e
    | .ok amb =>
      let igt : IGT :=
        { line := utterance, gloss := "NA", translation := "NA",
          pfx := .na,
          grammarker := detect_grammaticality utterance,
          context := get_context lines i 5,
          source := amb.1, linenr := n, pagenr := amb.2, doi := "NA",
          classification_methods := ["IGT initialized by L tag"] }
      .ok { st with IGTs := st.IGTs ++ [igt], saved := st.saved ++ [linenr] }

/-- Lines 176-187: the zero-candidate G/T branch.  The record is fully
built and the line number is recorded as consumed, but the source never
appends the record to IGTs, so it is discarded. -/
def gtCreate (lines : List String) (i : Nat) (st : HState)
    (utterance : String) (linenr : String) (isG : Bool) : Except PyErr HState :=
  match getAmbient st with
  | .error e => .error e
  | .ok amb =>
    match pyIndex lines (if isG then (i : Int) - 1 else (i : Int) - 2) with
    | none => .error .indexErr
    | some nb =>
      let q := get_utterance_and_prefix nb
      let _igt : IGT :=
        { line := q.2, gloss := if isG then utterance else "NA",
          translation := if isG then "NA" else utterance,
          pfx := .found q.1,
          grammarker := detect_grammaticality q.2,
          context := "",
          source := amb.1, linenr := 0, pagenr := amb.2, doi := "NA",
          classification_methods := ["IGT initialized by G or T tag, L assigned accordingly"] }
      .ok { st with saved := st.saved ++ [linenr] }

/-- Lines 158-173: the single-candidate G/T branch: mutate the candidate
in place (append one provenance entry, set the matching field) and mark
the line consumed. -/
def gtUpdate (st : HState) (index : Nat) (igt0 : IGT)
    (utterance : String) (linenr : String) (isG : Bool) : HState :=
  let igt' :=
    if isG then
      { igt0 with gloss := utterance,
                  classification_methods := igt0.classification_methods ++ ["updated gloss by tag"] }
    else
      { igt0 with translation := utterance,
                  classification_methods := igt0.classification_methods ++ ["updated translation by tag"] }
  { st with IGTs := st.IGTs.set index igt', saved := st.saved ++ [linenr] }

/-- One iteration of the for loop over enumerate(lines)
(glossharvester.py lines 135-209). -/
def processRow (lines : List String) (cutoff : PyFloat) (i : Nat) (st : HState) : Except PyErr HState :=
  let row := lines.getD i ""
  if startsWithS row "line" then
    let linetag := get_linetag row
    match get_linenr row with
    | .error e => .error e
    | .ok linenr =>
      let pu := get_utterance_and_prefix row
      match get_iscore row with
      | .error e => .error e
      | .ok v =>
        if linetag = "L" then lBranch lines i st pu.2 linenr
        else if linetag = "G" ∨ linetag = "T" then
          -- the comprehension evaluates int(linenr) once per element, so
          -- an empty record list skips the conversion entirely
          match (if st.IGTs.isEmpty then .ok []
                 else match pyInt linenr with
                      | .error e => .error e
                      | .ok n => .ok (st.IGTs.enum.filter
                          (fun p => (p.2.linenr - n).natAbs ≤ 2)) :
                   Except PyErr (List (Nat × IGT))) with
          | .error e => .error e
          | .ok [] => gtCreate lines i st pu.2 linenr (linetag = "G")
          | .ok [(index, igt0)] => .ok (gtUpdate st index igt0 pu.2 linenr (linetag = "G"))
          | .ok (_ :: _ :: _) =>
            -- pass with no continue: fall through to the iscore check
            iscoreFallback lines cutoff i st pu.2 linenr v
        else iscoreFallback lines cutoff i st pu.2 linenr v
  else if startsWithS row "doc_id" then
    match docIdSource row with
    | none => .error .attrErr
    | some src =>
      match pageOf row with
      | none => .error .indexErr
      | some pg => .ok { st with ambient := some (src, pg) }
  else .ok st

def runRows (lines : List String) (cutoff : PyFloat) : List Nat → HState → Except PyErr HState
  | [], st => .ok st
  | i :: is, st =>
    match processRow lines cutoff i st with
    | .error e => .error e
    | .ok st' => runRows lines cutoff is st'

/-- harvest_IGTs, with the readlines result as input and the record list
as output. -/
def harvest_IGTs (lines : List String) (cutoff : PyFloat) : Except PyErr (List IGT) :=
  (runRows lines cutoff (List.range lines.length) initState).map (fun st => st.IGTs)

/-- A content line reaches a record-creating branch when run against the
empty initial state: its linenr and iscore extractions succeed, and
either it is L-tagged with a parseable line number, or G/T-tagged (with
no records yet there are zero proximity candidates, so the creating
branch runs), or untagged with iscore above the cutoff and a readable
line number on the preceding physical line (never already consumed, the
consumed set being empty). -/
def reachesCreation (lines : List String) (i : Nat) (cutoff : PyFloat) : Bool :=
  let row := lines.getD i ""
  match get_linenr row, get_iscore row with
  | .ok s, .ok v =>
    let tag := get_linetag row
    if tag = "L" then
      match pyInt s with
      | .ok _ => true
      | .error _ => false
    else if tag = "G" ∨ tag = "T" then true
    else
      cutoff.lt v &&
        (match pyIndex lines ((i : Int) - 1) with
         | some prev =>
           match get_linenr prev with
           | .ok _ => true
           | .error _ => false
         | none => false)
  | _, _ => false

/-! ## Concrete input streams used by the individual claims -/

/-- One L line, one G line with no proximity candidate, one untagged
high-iscore line. -/
def rowsC1 : List String :=
  ["doc_id=A-scanned page=1 x",
   "line=10 tag=L iscore=0.0:alpha",
   "line=50 tag=G iscore=0.0:beta",
   "zzz",
   "line=60 iscore=0.9:gamma"]

/-- A single G line with no proximity candidate. -/
def rowsC2 : List String :=
  ["doc_id=A-scanned page=1 x", "line=7 tag=G iscore=0.0:the gloss"]

/-- Two L records within two lines of the final G line (two proximity
candidates), the G line carrying a high iscore, preceded by an inert
filler row whose line number is not consumed. -/
def rowsC3 : List String :=
  ["doc_id=A-scanned page=1 x",
   "line=10 tag=L iscore=0.0:alpha",
   "line=12 tag=L iscore=0.0:beta",
   "junk",
   "line=11 tag=G iscore=0.9:gloss"]

/-- An untagged high-iscore line in second-to-last position, with a real
utterance on the following line. -/
def rowsC8 : List String :=
  ["doc_id=B-scanned page=2 x",
   "line=5 iscore=0.9:gloss text",
   "x:the translation"]

/-- Ten content lines whose utterances are their own indices. -/
def rowsC7 : List String :=
  ["x:0", "x:1", "x:2", "x:3", "x:4", "x:5", "x:6", "x:7", "x:8", "x:9"]

/-- Minimal records at line numbers 10 and 12, used as the two proximity
candidates in the C3 witness. -/
def igtW1 : IGT :=
  { line := "NA", gloss := "NA", translation := "NA", pfx := .na, grammarker := none,
    context := "", source := "NA", linenr := 10, pagenr := "0", doi := "NA",
    classification_methods := ["m"] }

def igtW2 : IGT :=
  { igtW1 with linenr := 12 }

/-! ## Helper lemmas -/

theorem strAppend_empty (s : String) : s ++ "" = s := by
  cases s with
  | mk l => exact congrArg String.mk (List.append_nil l)

theorem strAppend_assoc (a b c : String) : a ++ b ++ c = a ++ (b ++ c) := by
  cases a with
  | mk la =>
    cases b with
    | mk lb =>
      cases c with
      | mk lc => exact congrArg String.mk (List.append_assoc la lb lc)

theorem foldl_append_eq (l : List String) :
    ∀ a, List.foldl (fun a b => a ++ b) a l = a ++ concatAll l := by
  induction l with
  | nil => intro a; exact (strAppend_empty a).symm
  | cons y ys ih =>
    intro a
    show List.foldl (fun a b => a ++ b) (a ++ y) ys = a ++ concatAll (y :: ys)
    have h2 : concatAll (y :: ys) = ("" ++ y) ++ concatAll ys := ih ("" ++ y)
    rw [h2, ih (a ++ y)]
    show (a ++ y) ++ concatAll ys = a ++ (y ++ concatAll ys)
    exact strAppend_assoc a y (concatAll ys)

theorem concatAll_cons (x : String) (l : List String) :
    concatAll (x :: l) = x ++ concatAll l :=
  foldl_append_eq l x

theorem strEmpty_append (s : String) : "" ++ s = s := by
  cases s
  rfl

theorem pyIndex_nonneg (xs : List String) (k : Nat) :
    pyIndex xs (Int.ofNat k) = xs.get? k := by
  rw [pyIndex, if_pos (show (0 : Int) ≤ Int.ofNat k from Int.ofNat_nonneg k)]
  rfl

/-- ctxGo over consecutive nonnegative indices: concatenates the
utterances of the in-range lines and truncates at the first index past
the end of the stream. -/
theorem ctxGo_range' (lines : List String) :
    ∀ (m base : Nat) (acc : String),
      ctxGo lines ((List.range' base m).map Int.ofNat) acc =
        acc ++ concatAll ((List.range' base (min (base + m) lines.length - base)).map
          (fun k => get_utterance (lines.getD k "") ++ "\n")) := by
  intro m
  induction m with
  | zero =>
    intro base acc
    have h0 : min (base + 0) lines.length - base = 0 := by
      rcases Nat.le_total base lines.length with hle | hle
      · rw [Nat.add_zero, Nat.min_eq_left hle]
        omega
      · rw [Nat.add_zero, Nat.min_eq_right hle]
        omega
    rw [h0]
    exact (strAppend_empty acc).symm
  | succ m ih =>
    intro base acc
    rw [List.range'_succ, List.map_cons]
    show ctxGo lines (Int.ofNat base :: (List.range' (base + 1) m).map Int.ofNat) acc = _
    unfold ctxGo
    rw [pyIndex_nonneg]
    cases hlt : lines.get? base with
    | none =>
      have hge : lines.length ≤ base := List.get?_eq_none.mp hlt
      have h0 : min (base + (m + 1)) lines.length - base = 0 := by
        rw [Nat.min_eq_right (by omega)]
        omega
      rw [h0]
      exact (strAppend_empty acc).symm
    | some x =>
      have hb : base < lines.length := by
        rcases List.get?_eq_some.mp hlt with ⟨h, _⟩
        exact h
      have ht : min (base + (m + 1)) lines.length - base =
          (min ((base + 1) + m) lines.length - (base + 1)) + 1 := by
        rcases Nat.le_total (base + (m + 1)) lines.length with hle | hle
        · rw [Nat.min_eq_left hle, Nat.min_eq_left (by omega)]
          omega
        · rw [Nat.min_eq_right hle, Nat.min_eq_right (by omega)]
          omega
      have hgd : lines.getD base "" = x := by
        rw [List.getD_eq_get?, hlt]
        rfl
      show ctxGo lines (List.map Int.ofNat (List.range' (base + 1) m))
          (acc ++ get_utterance x ++ "\n") = _
      rw [ih (base + 1) (acc ++ get_utterance x ++ "\n"), ht, List.range'_succ,
        List.map_cons, concatAll_cons, hgd]
      simp only [strAppend_assoc]

theorem prefGo_eq (ws : List String) :
    ∀ acc, prefGo ws acc =
      if ws.all isPrefTok then none else some (acc ++ ws.takeWhile isPrefTok) := by
  induction ws with
  | nil => intro acc; simp [prefGo]
  | cons w ws ih =>
    intro acc
    by_cases h : isPrefTok w
    · simp only [prefGo, h, if_true, ih (acc ++ [w]), List.all_cons, h,
        Bool.true_and, List.takeWhile_cons, if_pos h]
      by_cases hall : ws.all isPrefTok
      · simp [hall]
      · simp [hall, List.append_assoc]
    · simp [prefGo, h, List.all_cons, List.takeWhile_cons]

theorem gramGo_eq (cs : List Char) :
    ∀ acc, gramGo cs acc =
      if cs.all isMarkChar then none
      else some (String.mk (acc.data ++ cs.takeWhile isMarkChar)) := by
  induction cs with
  | nil =>
    intro acc
    simp [gramGo]
  | cons c cs ih =>
    intro acc
    by_cases h : isMarkChar c
    · simp only [gramGo, h, if_true, ih (acc.push c), List.all_cons, h,
        Bool.true_and, List.takeWhile_cons, if_pos h]
      by_cases hall : cs.all isMarkChar
      · simp [hall]
      · simp only [hall, if_false, Bool.false_eq_true, Option.some.injEq]
        apply congrArg String.mk
        show acc.data ++ [c] ++ cs.takeWhile isMarkChar = acc.data ++ (c :: cs.takeWhile isMarkChar)
        rw [List.append_assoc]
        rfl
    · simp only [gramGo, h, if_false, List.all_cons, Bool.false_and,
        List.takeWhile_cons, Bool.false_eq_true, Option.some.injEq]
      cases acc with
      | mk la => simp

theorem lBranch_shape (lines : List String) (i : Nat) (st st' : HState)
    (utt lnr : String) (h : lBranch lines i st utt lnr = Except.ok st') :
    ∃ g, st'.IGTs = st.IGTs ++ [g] ∧ g.classification_methods.length = 1 ∧
      st'.saved = st.saved ++ [lnr] := by
  unfold lBranch at h
  split at h
  · simp at h
  · split at h
    · simp at h
    · injection h with h2
      subst h2
      exact ⟨_, rfl, rfl, rfl⟩

theorem gtCreate_shape (lines : List String) (i : Nat) (st st' : HState)
    (utt lnr : String) (isG : Bool) (h : gtCreate lines i st utt lnr isG = Except.ok st') :
    st'.IGTs = st.IGTs ∧ st'.saved = st.saved ++ [lnr] := by
  unfold gtCreate at h
  split at h
  · simp at h
  · split at h
    · simp at h
    · injection h with h2
      subst h2
      exact ⟨rfl, rfl⟩

theorem iscoreFallback_shape (lines : List String) (cutoff : PyFloat) (i : Nat)
    (st st' : HState) (utt lnr : String) (v : PyFloat)
    (h : iscoreFallback lines cutoff i st utt lnr v = Except.ok st') :
    st'.IGTs = st.IGTs ∨
      ∃ g, st'.IGTs = st.IGTs ++ [g] ∧ g.classification_methods.length = 1 := by
  unfold iscoreFallback at h
  split at h
  · split at h
    · simp at h
    · split at h
      · simp at h
      · split at h
        · injection h with h2
          subst h2
          exact Or.inl rfl
        · split at h
          · simp at h
          · injection h with h2
            subst h2
            exact Or.inr ⟨_, rfl, rfl⟩
  · injection h with h2
    subst h2
    exact Or.inl rfl

/-- Every successful step leaves the record list unchanged, appends one
freshly created record with a single provenance entry, or updates one
existing record in place, preserving its linenr and appending exactly one
provenance entry. -/
theorem processRow_shapes (lines : List String) (cutoff : PyFloat) (i : Nat)
    (st st' : HState) (h : processRow lines cutoff i st = Except.ok st') :
    st'.IGTs = st.IGTs ∨
    (∃ g, st'.IGTs = st.IGTs ++ [g] ∧ g.classification_methods.length = 1) ∨
    (∃ idx g0 g1, st.IGTs.get? idx = some g0 ∧ st'.IGTs = st.IGTs.set idx g1 ∧
      g1.linenr = g0.linenr ∧
      ∃ e, g1.classification_methods = g0.classification_methods ++ [e]) := by
  simp only [processRow] at h
  split at h
  · split at h
    · simp at h
    · split at h
      · simp at h
      · split at h
        · rcases lBranch_shape _ _ _ _ _ _ h with ⟨g, hg, hg1, _⟩
          exact Or.inr (Or.inl ⟨g, hg, hg1⟩)
        · split at h
          · split at h
            · simp at h
            · rcases gtCreate_shape _ _ _ _ _ _ _ h with ⟨h1, _⟩
              exact Or.inl h1
            · next index igt0 heq =>
              injection h with h2
              subst h2
              split at heq
              · simp at heq
              · split at heq
                · simp at heq
                · next n hpi =>
                  injection heq with hfil
                  have hmem : (index, igt0) ∈
                      st.IGTs.enum.filter (fun p => (p.2.linenr - n).natAbs ≤ 2) := by
                    rw [hfil]
                    exact List.mem_cons_self _ _
                  have hmem2 : (index, igt0) ∈ st.IGTs.enum := (List.mem_filter.mp hmem).1
                  have hx := List.mem_enum hmem2
                  have hget : st.IGTs.get? index = some igt0 := by
                    rw [List.get?_eq_getElem?, List.getElem?_eq_getElem hx.1]
                    exact congrArg some hx.2.symm
                  by_cases hg : get_linetag (lines.getD i "") = "G"
                  · refine Or.inr (Or.inr ⟨index, igt0,
                      { igt0 with
                        gloss := ( get_utterance_and_prefix (lines.getD i "")).2,
                        classification_methods :=
                          igt0.classification_methods ++ ["updated gloss by tag"] },
                      hget, ?_, rfl, ⟨"updated gloss by tag", rfl⟩⟩)
                    have hd : (decide (get_linetag (lines.getD i "") = "G")) = true := by
                      rw [hg]
                      rfl
                    simp only [gtUpdate, hd, if_true]
                  · refine Or.inr (Or.inr ⟨index, igt0,
                      { igt0 with
                        translation := ( get_utterance_and_prefix (lines.getD i "")).2,
                        classification_methods :=
                          igt0.classification_methods ++ ["updated translation by tag"] },
                      hget, ?_, rfl, ⟨"updated translation by tag", rfl⟩⟩)
                    have hd : (decide (get_linetag (lines.getD i "") = "G")) = false :=
                      decide_eq_false hg
                    simp only [gtUpdate, hd, Bool.false_eq_true, if_false]
            · rcases iscoreFallback_shape _ _ _ _ _ _ _ _ h with h1 | ⟨g, hg, hg1⟩
              · exact Or.inl h1
              · exact Or.inr (Or.inl ⟨g, hg, hg1⟩)
          · rcases iscoreFallback_shape _ _ _ _ _ _ _ _ h with h1 | ⟨g, hg, hg1⟩
            · exact Or.inl h1
            · exact Or.inr (Or.inl ⟨g, hg, hg1⟩)
  · split at h
    · split at h
      · simp at h
      · split at h
        · simp at h
        · injection h with h2
          subst h2
          exact Or.inl rfl
    · injection h with h2
      subst h2
      exact Or.inl rfl

theorem processRow_methods_inv (lines : List String) (cutoff : PyFloat) (i : Nat)
    (st st' : HState) (h : processRow lines cutoff i st = Except.ok st')
    (hinv : ∀ r ∈ st.IGTs, 1 ≤ r.classification_methods.length) :
    ∀ r ∈ st'.IGTs, 1 ≤ r.classification_methods.length := by
  rcases processRow_shapes lines cutoff i st st' h with
    heq | ⟨g, hg, hg1⟩ | ⟨idx, g0, g1, hget, hset, _, e, hme⟩
  · rw [heq]
    exact hinv
  · intro r hr
    rw [hg] at hr
    rcases List.mem_append.mp hr with h1 | h1
    · exact hinv r h1
    · have hrg : r = g := by simpa using h1
      rw [hrg, hg1]
  · intro r hr
    rw [hset] at hr
    rcases List.mem_or_eq_of_mem_set hr with h1 | h1
    · exact hinv r h1
    · have h0 := hinv g0 (List.get?_mem hget)
      rw [h1, hme]
      simp only [List.length_append]
      omega

theorem runRows_methods (lines : List String) (cutoff : PyFloat) :
    ∀ (is : List Nat) (st st' : HState),
      runRows lines cutoff is st = Except.ok st' →
      (∀ r ∈ st.IGTs, 1 ≤ r.classification_methods.length) →
      ∀ r ∈ st'.IGTs, 1 ≤ r.classification_methods.length := by
  intro is
  induction is with
  | nil =>
    intro st st' h hinv
    unfold runRows at h
    injection h with h2
    rw [← h2]
    exact hinv
  | cons i is ih =>
    intro st st' h hinv
    unfold runRows at h
    split at h
    · simp at h
    · next st1 heq =>
      exact ih st1 st' h (processRow_methods_inv lines cutoff i st st1 heq hinv)

theorem processRow_inert (lines : List String) (cutoff : PyFloat) (i : Nat) (st : HState)
    (h1 : startsWithS (lines.getD i "") "line" = false)
    (h2 : startsWithS (lines.getD i "") "doc_id" = false) :
    processRow lines cutoff i st = Except.ok st := by
  simp only [processRow, h1, h2, Bool.false_eq_true, if_false]

theorem runRows_append (lines : List String) (cutoff : PyFloat) :
    ∀ (is1 is2 : List Nat) (st : HState),
      runRows lines cutoff (is1 ++ is2) st =
        match runRows lines cutoff is1 st with
        | .ok st1 => runRows lines cutoff is2 st1
        | .error e => .error e := by
  intro is1
  induction is1 with
  | nil => intro is2 st; rfl
  | cons i is ih =>
    intro is2 st
    simp only [List.cons_append, runRows]
    cases hp : processRow lines cutoff i st with
    | error e => rfl
    | ok st1 => exact ih is2 st1

theorem runRows_inert (lines : List String) (cutoff : PyFloat) :
    ∀ (ks : List Nat) (st : HState),
      (∀ k ∈ ks, startsWithS (lines.getD k "") "line" = false ∧
          startsWithS (lines.getD k "") "doc_id" = false) →
      runRows lines cutoff ks st = Except.ok st := by
  intro ks
  induction ks with
  | nil => intro st _; rfl
  | cons k ks ih =>
    intro st hk
    unfold runRows
    rw [processRow_inert lines cutoff k st (hk k (List.mem_cons_self k ks)).1
      (hk k (List.mem_cons_self k ks)).2]
    exact ih st (fun j hj => hk j (List.mem_cons_of_mem k hj))

/-- Against the empty initial state (no document boundary seen yet),
a content line that reaches any record-creating branch makes the step
fail with the UnboundLocalError on the Python local named source. -/
theorem processRow_creation_unbound (lines : List String) (cutoff : PyFloat) (i : Nat)
    (hrow : startsWithS (lines.getD i "") "line" = true)
    (hcr : reachesCreation lines i cutoff = true) :
    processRow lines cutoff i initState = Except.error (PyErr.nameErr "source") := by
  simp only [reachesCreation] at hcr
  simp only [processRow, hrow, if_true]
  cases hlnr : get_linenr (lines.getD i "") with
  | error e => rw [hlnr] at hcr; simp at hcr
  | ok s =>
    rw [hlnr] at hcr
    simp only [hlnr]
    cases hisc : get_iscore (lines.getD i "") with
    | error e => rw [hisc] at hcr; simp at hcr
    | ok v =>
      rw [hisc] at hcr
      simp only [hisc]
      by_cases hL : get_linetag (lines.getD i "") = "L"
      · simp only [hL, if_true] at hcr ⊢
        cases hpi : pyInt s with
        | error e => rw [hpi] at hcr; simp at hcr
        | ok n => simp only [lBranch, hpi, getAmbient, initState]
      · simp only [hL, if_false] at hcr ⊢
        by_cases hGT : get_linetag (lines.getD i "") = "G" ∨ get_linetag (lines.getD i "") = "T"
        · simp only [hGT, if_true] at hcr ⊢
          simp only [initState, List.isEmpty_nil, if_true, gtCreate, getAmbient]
        · simp only [hGT, if_false] at hcr ⊢
          rcases Bool.and_eq_true_iff.mp hcr with ⟨hlt, hmatch⟩
          cases hpj : pyIndex lines ((i : Int) - 1) with
          | none => rw [hpj] at hmatch; simp at hmatch
          | some prev =>
            rw [hpj] at hmatch
            simp only [] at hmatch
            cases hpn : get_linenr prev with
            | error e => rw [hpn] at hmatch; simp at hmatch
            | ok pnr =>
              simp only [iscoreFallback, hlt, if_true, hpj, hpn, initState,
                List.not_mem_nil, if_false, getAmbient]

/-! ## Claim theorems -/

/-- C1: the claimed count invariant fails on the code: rowsC1 has one
L-tagged line, one G-tagged line with zero proximity candidates and one
fallback-created record, so the claim predicts three records, but the
zero-candidate branch never appends its record to IGTs and the run
returns only two (the L record and the fallback record). -/
theorem claim_C1_record_count :
    (harvest_IGTs rowsC1 defaultCutoff).map List.length = Except.ok 2 ∧
    get_linetag (rowsC1.getD 2 "") = "G" ∧
    (harvest_IGTs rowsC1 defaultCutoff).map (List.map IGT.classification_methods) =
      Except.ok [["IGT initialized by L tag"],
                 ["IGT initialized by iscore L and T assigned accordingly"]] := by
  refine ⟨by decide, by decide, by decide⟩

/-- C2: on a G line with zero proximity candidates, the code marks the
line number consumed (saved becomes the 7-entry) but the created record
is never appended: the final state has an empty record list, so the
record is not retained in the engine's output. -/
theorem claim_C2_dropped_record :
    runRows rowsC2 defaultCutoff (List.range rowsC2.length) initState =
      Except.ok { IGTs := [], saved := ["7"], ambient := some ("A", "1") } := by
  decide

/-- C3 counterexample: line 4 of rowsC3 is G-tagged and has two proximity
candidates, yet processing it is not a no-op: because the multi-candidate
branch has no continue, control falls into the iscore fallback, a third
record is created and the line number 11 is marked consumed. -/
theorem claim_C3_counterexample :
    get_linetag (rowsC3.getD 4 "") = "G" ∧
    (runRows rowsC3 defaultCutoff (List.range 4) initState).map
        (fun st => (st.IGTs.enum.filter (fun p => (p.2.linenr - 11).natAbs ≤ 2)).length) =
      Except.ok 2 ∧
    (runRows rowsC3 defaultCutoff (List.range 4) initState).map (fun st => st.IGTs.length) =
      Except.ok 2 ∧
    (runRows rowsC3 defaultCutoff (List.range 5) initState).map (fun st => st.IGTs.length) =
      Except.ok 3 ∧
    (runRows rowsC3 defaultCutoff (List.range 5) initState).map (fun st => st.saved) =
      Except.ok ["10", "12", "11"] := by
  refine ⟨by decide, by decide, by decide, by decide, by decide⟩

/-- C4 counterexample: parsing can raise: a content line whose line=
marker has no value after it raises IndexError in get_linenr, and a
document-boundary row whose identifier does not match the -scanned shape
makes the engine raise AttributeError instead of yielding a sentinel. -/
theorem claim_C4_counterexample :
    get_linenr "line=" = Except.error PyErr.indexErr ∧
    processRow ["doc_id=A page=1"] defaultCutoff 0 initState = Except.error PyErr.attrErr := by
  exact ⟨by decide, by decide⟩

/-- C5 counterexample: when every token qualifies the loop completes and
the source returns Python None rather than the collected tokens, so
detect_prefix of a bare enumeration token is none, not the one-token
sequence the claim requires; and when the first token fails the result is
the (falsy) empty list, not None. -/
theorem claim_C5_counterexample :
    detect_prefix "(1)" = none ∧ detect_prefix "Hello world" = some [] := by
  exact ⟨by decide, by decide⟩

/-- C6 counterexample: an utterance whose first token consists entirely
of marker characters makes the loop complete, and the source falls off
the function returning the sentinel None even though the utterance has a
token, contradicting the claim that the sentinel occurs only for empty
utterances. -/
theorem claim_C6_counterexample :
    detect_grammaticality "**" = none ∧ pySplitWs "**" = ["**"] := by
  exact ⟨by decide, by decide⟩

/-- C7 counterexample: at index 0 with window 5 the offsets -5..-1 are
Python negative indices, so instead of returning the partial
concatenation built so far (the empty string), get_context wraps around
and returns the last five utterances followed by the first five. -/
theorem claim_C7_counterexample :
    get_context rowsC7 0 5 = "5\n6\n7\n8\n9\n0\n1\n2\n3\n4\n" := by
  decide

/-- C8 counterexample: the fallback line of rowsC8 sits at index 1 of 3,
so a following physical line with utterance text exists, yet the
condition i < len(lines)-2 is already false and the created record gets
the sentinel NA translation. -/
theorem claim_C8_counterexample :
    (harvest_IGTs rowsC8 defaultCutoff).map (List.map IGT.translation) = Except.ok ["NA"] ∧
    get_utterance (rowsC8.getD 2 "") = "the translation" ∧
    rowsC8.length = 3 := by
  refine ⟨by decide, by decide, by decide⟩

/-- C3 amended: for a G- or T-tagged content line with more than one
proximity candidate, the tag branch neither creates nor mutates a record,
but — the branch body being a bare pass with no continue — control falls
through to the iscore fallback: with iscore at or below the cutoff the
line is a no-op, while with iscore above the cutoff the fallback may
create a record and mark the line consumed. -/
theorem claim_C3_amended (lines : List String) (cutoff : PyFloat) (i : Nat) (st : HState)
    (s : String) (v : PyFloat) (n : Int)
    (hrow : startsWithS (lines.getD i "") "line" = true)
    (htag : get_linetag (lines.getD i "") = "G" ∨ get_linetag (lines.getD i "") = "T")
    (hlnr : get_linenr (lines.getD i "") = Except.ok s)
    (hisc : get_iscore (lines.getD i "") = Except.ok v)
    (hne : st.IGTs.isEmpty = false)
    (hn : pyInt s = Except.ok n)
    (hmany : 2 ≤ (st.IGTs.enum.filter (fun p => (p.2.linenr - n).natAbs ≤ 2)).length) :
    processRow lines cutoff i st =
      iscoreFallback lines cutoff i st ( get_utterance_and_prefix (lines.getD i "")).2 s v ∧
    (cutoff.lt v = false →
      processRow lines cutoff i st = Except.ok st) := by
  have hL : get_linetag (lines.getD i "") ≠ "L" := by
    rcases htag with h | h <;> rw [h] <;> decide
  obtain ⟨a, b, rest, hfil⟩ :
      ∃ a b rest,
        st.IGTs.enum.filter (fun p => (p.2.linenr - n).natAbs ≤ 2) = a :: b :: rest := by
    cases hf : st.IGTs.enum.filter (fun p => (p.2.linenr - n).natAbs ≤ 2) with
    | nil => rw [hf] at hmany; simp at hmany
    | cons x xs =>
      cases xs with
      | nil => rw [hf] at hmany; simp at hmany
      | cons y ys => exact ⟨x, y, ys, rfl⟩
  have hmain : processRow lines cutoff i st =
      iscoreFallback lines cutoff i st ( get_utterance_and_prefix (lines.getD i "")).2 s v := by
    simp only [processRow, hrow, hlnr, hisc, hne, hn, hfil, if_true, if_neg hL,
      if_pos htag, Bool.false_eq_true, if_false]
  refine ⟨hmain, fun hcut => ?_⟩
  rw [hmain]
  simp only [iscoreFallback, hcut, Bool.false_eq_true, if_false]

/-- C3 witness: a G line with two proximity candidates and iscore 0.2
below the default cutoff is a no-op, by the amended fall-through
theorem. -/
theorem claim_C3_amended_witness :
    processRow ["line=11 tag=G iscore=0.2:g"] defaultCutoff 0
      (HState.mk [igtW1, igtW2] [] none) =
      Except.ok (HState.mk [igtW1, igtW2] [] none) :=
  (claim_C3_amended ["line=11 tag=G iscore=0.2:g"] defaultCutoff 0
    (HState.mk [igtW1, igtW2] [] none) "11" (PyFloat.mk 2 10) 11
    (by decide) (Or.inl (by decide)) (by decide) (by decide)
    (by decide) (by decide) (by decide)).2 (by decide)

/-- C8 amended: for a content line whose tag is none of L, G, T: with
iscore at or below the cutoff the line has no effect; with iscore above
it, the line is skipped when the preceding physical line's number is
already consumed, and otherwise a record is appended whose line/prefix
come from the preceding physical line, whose gloss is the current
utterance, and whose translation is the following line's utterance only
when i < len(lines) - 2 — the NA sentinel therefore covers the last two
positions of the stream, not only the very end
(claim_C8_counterexample). -/
theorem claim_C8_amended (lines : List String) (cutoff : PyFloat) (i : Nat) (st : HState)
    (s : String) (v : PyFloat)
    (hrow : startsWithS (lines.getD i "") "line" = true)
    (hL : get_linetag (lines.getD i "") ≠ "L")
    (hG : get_linetag (lines.getD i "") ≠ "G")
    (hT : get_linetag (lines.getD i "") ≠ "T")
    (hlnr : get_linenr (lines.getD i "") = Except.ok s)
    (hisc : get_iscore (lines.getD i "") = Except.ok v) :
    (cutoff.lt v = false → processRow lines cutoff i st = Except.ok st) ∧
    (cutoff.lt v = true →
      ∀ prev pnr, pyIndex lines ((i : Int) - 1) = some prev →
        get_linenr prev = Except.ok pnr →
        ((pnr ∈ st.saved → processRow lines cutoff i st = Except.ok st) ∧
         (pnr ∉ st.saved → ∀ src pg, st.ambient = some (src, pg) →
           processRow lines cutoff i st = Except.ok
             { IGTs := st.IGTs ++
                 [{ line := ( get_utterance_and_prefix prev).2,
                    gloss := ( get_utterance_and_prefix (lines.getD i "")).2,
                    translation :=
                      if i + 2 < lines.length then get_utterance (lines.getD (i + 1) "")
                      else "NA",
                    pfx := PrefixVal.found ( get_utterance_and_prefix prev).1,
                    grammarker := detect_grammaticality ( get_utterance_and_prefix prev).2,
                    context := get_context lines i 5,
                    source := src, linenr := 0, pagenr := pg, doi := "NA",
                    classification_methods :=
                      ["IGT initialized by iscore L and T assigned accordingly"] }],
               saved := st.saved ++ [s],
               ambient := st.ambient }))) := by
  have hGT : ¬ (get_linetag (lines.getD i "") = "G" ∨ get_linetag (lines.getD i "") = "T") := by
    rintro (h | h)
    · exact hG h
    · exact hT h
  have hroute : processRow lines cutoff i st =
      iscoreFallback lines cutoff i st ( get_utterance_and_prefix (lines.getD i "")).2 s v := by
    simp only [processRow, hrow, hlnr, hisc, if_true, if_neg hL, if_neg hGT]
  refine ⟨fun hcut => ?_, fun hcut => ?_⟩
  · rw [hroute]
    simp only [iscoreFallback, hcut, Bool.false_eq_true, if_false]
  · intro prev pnr hprev hpnr
    constructor
    · intro hmem
      rw [hroute]
      simp only [iscoreFallback, hcut, if_true, hprev, hpnr, if_pos hmem]
    · intro hmem src pg hamb
      rw [hroute]
      simp only [iscoreFallback, hcut, if_true, hprev, hpnr, if_neg hmem, getAmbient, hamb]

/-- C8 witness: the amended fallback theorem applied to a two-line
stream whose content line is untagged with iscore 0.9: a record with NA
translation is appended and the line number 5 is consumed. -/
theorem claim_C8_amended_witness :
    processRow ["d", "line=5 iscore=0.9:g"] defaultCutoff 1
      (HState.mk [] [] (some ("S", "1"))) =
      Except.ok
        { IGTs := [] ++
            [{ line := ( get_utterance_and_prefix "d").2,
               gloss := ( get_utterance_and_prefix (["d", "line=5 iscore=0.9:g"].getD 1 "")).2,
               translation :=
                 if 1 + 2 < (["d", "line=5 iscore=0.9:g"] : List String).length
                 then get_utterance (["d", "line=5 iscore=0.9:g"].getD (1 + 1) "")
                 else "NA",
               pfx := PrefixVal.found ( get_utterance_and_prefix "d").1,
               grammarker := detect_grammaticality ( get_utterance_and_prefix "d").2,
               context := get_context ["d", "line=5 iscore=0.9:g"] 1 5,
               source := "S", linenr := 0, pagenr := "1", doi := "NA",
               classification_methods :=
                 ["IGT initialized by iscore L and T assigned accordingly"] }],
          saved := [] ++ ["5"],
          ambient := some ("S", "1") } :=
  (((claim_C8_amended ["d", "line=5 iscore=0.9:g"] defaultCutoff 1
      (HState.mk [] [] (some ("S", "1"))) "5" (PyFloat.mk 9 10)
      (by decide) (by decide) (by decide) (by decide) (by decide) (by decide)).2
    (by decide) "d" "NA" (by decide) (by decide)).2
    (by decide) "S" "1" rfl)

/-- C9: per step, the record list only grows (no record is ever
removed), every existing record keeps its position and its linenr, and
its classification_methods list is only ever extended, by at most one
entry per step (exactly one when the step mutates it); and over a whole
run every record in the output has at least one provenance entry. -/
theorem claim_C9 :
    (∀ (lines : List String) (cutoff : PyFloat) (i : Nat) (st st' : HState),
      processRow lines cutoff i st = Except.ok st' →
        st.IGTs.length ≤ st'.IGTs.length ∧
        ∀ k r, st.IGTs.get? k = some r →
          ∃ r', st'.IGTs.get? k = some r' ∧ r'.linenr = r.linenr ∧
            r.classification_methods <+: r'.classification_methods ∧
            r'.classification_methods.length ≤ r.classification_methods.length + 1) ∧
    (∀ (lines : List String) (cutoff : PyFloat) (res : List IGT),
      harvest_IGTs lines cutoff = Except.ok res →
      ∀ r ∈ res, 1 ≤ r.classification_methods.length) := by
  constructor
  · intro lines cutoff i st st' h
    rcases processRow_shapes lines cutoff i st st' h with
      heq | ⟨g, hg, _⟩ | ⟨idx, g0, g1, hget, hset, hln, e, hme⟩
    · rw [heq]
      exact ⟨Nat.le_refl _, fun k r hk =>
        ⟨r, hk, rfl, List.prefix_refl _, Nat.le_succ _⟩⟩
    · rw [hg]
      constructor
      · simp
      · intro k r hk
        rcases List.get?_eq_some.mp hk with ⟨hklt, _⟩
        refine ⟨r, ?_, rfl, List.prefix_refl _, Nat.le_succ _⟩
        rw [List.get?_append hklt]
        exact hk
    · rw [hset]
      constructor
      · rw [List.length_set]
      · intro k r hk
        by_cases hki : idx = k
        · subst hki
          have hr0 : r = g0 := by
            rw [hget] at hk
            injection hk with h2
            exact h2.symm
          refine ⟨g1, ?_, ?_, ?_, ?_⟩
          · rw [List.get?_set_eq, hk]
            rfl
          · rw [hln, hr0]
          · rw [hr0, hme]
            exact List.prefix_append _ _
          · rw [hr0, hme]
            simp
        · exact ⟨r, by rw [List.get?_set_ne _ _ hki]; exact hk, rfl,
            List.prefix_refl _, Nat.le_succ _⟩
  · intro lines cutoff res h
    unfold harvest_IGTs at h
    cases hr : runRows lines cutoff (List.range lines.length) initState with
    | error e =>
      rw [hr] at h
      exact Except.noConfusion
        (show (Except.error e : Except PyErr (List IGT)) = Except.ok res from h)
    | ok stf =>
      rw [hr] at h
      have h2 : Except.ok (stf.IGTs) = Except.ok res := h
      have hres : res = stf.IGTs := by
        injection h2 with h3
        exact h3.symm
      rw [hres]
      exact runRows_methods lines cutoff (List.range lines.length) initState stf hr
        (fun r hr0 => (List.not_mem_nil r hr0).elim)

/-- C9 witness: the step part of the invariant theorem applied to the
document-boundary step from the initial state. -/
theorem claim_C9_witness :
    initState.IGTs.length ≤ (HState.mk [] [] (some ("A", "1"))).IGTs.length :=
  (claim_C9.1 ["doc_id=A-scanned page=1 x"] defaultCutoff 0 initState
    (HState.mk [] [] (some ("A", "1"))) (by decide)).1

/-- C10: if the first content line of the stream precedes every
document-boundary line (all earlier rows are inert: neither content nor
boundary rows) and that line reaches any record-creating branch — L tag
with parseable line number, G/T tag (necessarily zero candidates, the
record list being empty), or untagged above-cutoff iscore with a readable
preceding line number — then the whole harvest fails with the
UnboundLocalError on the Python local named source: every record-creating
branch requires a preceding document boundary. -/
theorem claim_C10 (pre post : List String) (r : String) (cutoff : PyFloat)
    (hpre : ∀ p ∈ pre, startsWithS p "line" = false ∧ startsWithS p "doc_id" = false)
    (hr : startsWithS r "line" = true)
    (hcr : reachesCreation (pre ++ r :: post) pre.length cutoff = true) :
    harvest_IGTs (pre ++ r :: post) cutoff = Except.error (PyErr.nameErr "source") := by
  have hgr : (pre ++ r :: post).getD pre.length "" = r := by
    rw [List.getD_eq_get?, List.get?_append_right (Nat.le_refl _), Nat.sub_self]
    rfl
  have hlen : (pre ++ r :: post).length = pre.length + (post.length + 1) := by
    simp
  have hinert : runRows (pre ++ r :: post) cutoff (List.range pre.length) initState =
      Except.ok initState := by
    apply runRows_inert
    intro k hk
    have hklt : k < pre.length := List.mem_range.mp hk
    have hga : (pre ++ r :: post).getD k "" = pre.getD k "" := by
      rw [List.getD_eq_get?, List.getD_eq_get?, List.get?_append hklt]
    rw [hga]
    apply hpre
    rw [List.getD_eq_get?, List.get?_eq_get hklt]
    exact List.get_mem _ _ _
  unfold harvest_IGTs
  rw [hlen, List.range_add, runRows_append, hinert]
  have hhead : (List.range (post.length + 1)).map (fun x => pre.length + x) =
      pre.length :: ((List.range post.length).map (fun x => pre.length + (x + 1))) := by
    rw [List.range_succ_eq_map, List.map_cons, List.map_map]
    simp [Function.comp]
  have hperr : processRow (pre ++ r :: post) cutoff pre.length initState =
      Except.error (PyErr.nameErr "source") := by
    apply processRow_creation_unbound
    · rw [hgr]
      exact hr
    · exact hcr
  show Except.map _ (runRows (pre ++ r :: post) cutoff
    ((List.range (post.length + 1)).map (fun x => pre.length + x)) initState) = _
  rw [hhead]
  unfold runRows
  rw [hperr]
  rfl

/-- C10 witness: the unbound-source theorem applied to a stream whose
inert first row is followed by an L-tagged content line. -/
theorem claim_C10_witness :
    harvest_IGTs ["x", "line=5 tag=L iscore=0.0:u"] defaultCutoff =
      Except.error (PyErr.nameErr "source") :=
  claim_C10 ["x"] [] "line=5 tag=L iscore=0.0:u" defaultCutoff
    (by decide) (by decide) (by decide)

/-- C5 amended: detect_prefix splits on whitespace; a token qualifies iff
it contains a character from the punctuation set or a digit and has
length < 6; at the first non-qualifying token the collected tokens are
returned (the falsy empty list when the very first token fails), and when
every token qualifies — including the empty input — the source returns
Python None. -/
theorem claim_C5_amended (s : String) :
    detect_prefix s =
      if (pySplitWs s).all isPrefTok then none
      else some ((pySplitWs s).takeWhile isPrefTok) := by
  unfold detect_prefix
  rw [prefGo_eq (pySplitWs s) []]
  simp

/-- C6 amended: detect_grammaticality accumulates the leading marker
characters of the first whitespace token and stops at the first
non-marker character; it returns the sentinel None both when the
utterance has no tokens and when the first token consists entirely of
marker characters (the loop then completes and control falls off the
function). -/
theorem claim_C6_amended (s : String) :
    detect_grammaticality s =
      match pySplitWs s with
      | [] => none
      | w :: _ =>
        if w.data.all isMarkChar then none
        else some (String.mk (w.data.takeWhile isMarkChar)) := by
  unfold detect_grammaticality
  cases h : pySplitWs s with
  | nil => rfl
  | cons w ws =>
    show gramGo w.data "" =
      if w.data.all isMarkChar then none
      else some (String.mk (w.data.takeWhile isMarkChar))
    rw [gramGo_eq w.data ""]
    rfl

/-- C7 amended: for an index at least one window-width from the start
(so that no Python negative indexing occurs), get_context concatenates
the utterance plus newline of the lines from index - w up to
min(index + w, length) - 1, in order: the full window when it fits, and
the longest available partial window, without raising, when the window
runs past the end of the stream.  Near the start the claim fails:
negative offsets wrap to the end of the stream (claim_C7_counterexample). -/
theorem claim_C7_amended (lines : List String) (index w : Nat) (hw : w ≤ index) :
    get_context lines index w =
      concatAll ((List.range' (index - w) (min (index + w) lines.length - (index - w))).map
        (fun k => get_utterance (lines.getD k "") ++ "\n")) := by
  unfold get_context
  have hmap : (List.range (2 * w)).map (fun (k : Nat) => (index : Int) - (w : Int) + Int.ofNat k) =
      (List.range' (index - w) (2 * w)).map Int.ofNat := by
    rw [List.range'_eq_map_range, List.map_map]
    apply List.map_congr_left
    intro a _
    show (index : Int) - (w : Int) + ((a : Nat) : Int) = (((index - w) + a : Nat) : Int)
    omega
  rw [hmap, ctxGo_range' lines (2 * w) (index - w) ""]
  rw [show (index - w) + 2 * w = index + w from by omega]
  exact strEmpty_append _

/-- C7 witness: the amended window theorem applied to a two-line stream
at index 1 with window width 1. -/
theorem claim_C7_amended_witness :
    1 ≤ 1 ∧
    get_context ["a:x", "b:y"] 1 1 =
      concatAll ((List.range' (1 - 1) (min (1 + 1) (["a:x", "b:y"].length) - (1 - 1))).map
        (fun k => get_utterance (["a:x", "b:y"].getD k "") ++ "\n")) :=
  ⟨Nat.le_refl 1, claim_C7_amended ["a:x", "b:y"] 1 1 (Nat.le_refl 1)⟩

/-- C4 amended: extraction is tolerant when a marker is entirely absent
(tag and linenr fall back to the NA sentinel and iscore to 0), and the
try/except makes a valueless tag marker yield NA as well; but a line=
marker with nothing after it, a row containing the bare word iscore
without a parseable value, and a document-boundary row without the
expected identifier shape or page marker all raise
(claim_C4_counterexample). -/
theorem claim_C4_amended (row : String) :
    (containsS row "tag=" = false → get_linetag row = "NA") ∧
    (containsS row "line=" = false → get_linenr row = Except.ok "NA") ∧
    (containsS row "iscore" = false → get_iscore row = Except.ok pyZero) := by
  refine ⟨fun h => ?_, fun h => ?_, fun h => ?_⟩
  · simp [get_linetag, h]
  · simp [get_linenr, h]
  · simp [get_iscore, h]

/-- C4 witness: the amended tolerance theorem applied to a marker-free
row. -/
theorem claim_C4_amended_witness :
    containsS "hello" "tag=" = false ∧ get_linetag "hello" = "NA" ∧
    containsS "hello" "line=" = false ∧ get_linenr "hello" = Except.ok "NA" ∧
    containsS "hello" "iscore" = false ∧ get_iscore "hello" = Except.ok pyZero :=
  ⟨by decide, (claim_C4_amended "hello").1 (by decide),
   by decide, (claim_C4_amended "hello").2.1 (by decide),
   by decide, (claim_C4_amended "hello").2.2 (by decide)⟩

end IgtHarvest
